import Mathlib

/-!
Shallow embedding of the orchestration core of the youtube-tools repository
(src/run.py, src/upload.py): the parallel translation orchestrator, the
localization reconciler, the resumable-upload chunk loop, the
existing-video localization update path, and the caption batch uploader.

JSON values exchanged with the two backends are modelled by an inductive
`JVal`; Python dictionaries (which preserve insertion order and overwrite
in place) are modelled as association lists with the `dictInsert` /
`alookup` operations.  External network calls are modelled as explicitly
passed capabilities returning `Except` (a raised exception = `.error`).
-/

/-- A JSON value, as far as the scripts manipulate them: null, strings,
booleans, objects (ordered field lists) and arrays. -/
inductive JVal where
  | jnull
  | jstr (s : String)
  | jbool (b : Bool)
  | jobj (fields : List (String × JVal))
  | jarr (elems : List JVal)

/-- Python truthiness of a JSON value: `None`, `""`, `{}`, `[]` and
`False` are falsy, everything else truthy. -/
def truthy : JVal → Bool
  | .jnull => false
  | .jstr s => !(s.isEmpty)
  | .jbool b => b
  | .jobj fs => !(fs.isEmpty)
  | .jarr xs => !(xs.isEmpty)

/-- First-match association-list lookup: the value stored under key `k`
in a Python dict represented as an ordered field list. -/
def alookup {α : Type} : List (String × α) → String → Option α
  | [], _ => none
  | p :: ps, k => if p.1 = k then some p.2 else alookup ps k

/-- The keys of a Python dict, in insertion order. -/
def dictKeys {α : Type} (m : List (String × α)) : List String :=
  m.map Prod.fst

/-- Python dict assignment `m[k] = v`: overwrite in place if the key is
present, else append at the end (insertion order preserved). -/
def dictInsert {α : Type} (m : List (String × α)) (k : String) (v : α) :
    List (String × α) :=
  if k ∈ dictKeys m then
    m.map (fun p => if p.1 = k then (k, v) else p)
  else m ++ [(k, v)]

/-- Python `d.get(k)` on a JSON object: `None` when the key is missing;
`None` as well when the receiver is not an object (the scripts only call
it on objects — on anything else Python would raise, which no claim
exercises through this helper). -/
def pyGet (v : JVal) (k : String) : JVal :=
  match v with
  | .jobj fs => (alookup fs k).getD .jnull
  | _ => .jnull

/-- Python `d.get(k, dflt)` on a JSON object (total version, see `pyGet`). -/
def jgetD (v : JVal) (k : String) (dflt : JVal) : JVal :=
  match v with
  | .jobj fs => (alookup fs k).getD dflt
  | _ => dflt

/-- Python `d[k]` on a JSON object: raises (`.error`) when the key is
missing or the receiver is not an object. -/
def pyIndex (v : JVal) (k : String) : Except String JVal :=
  match v with
  | .jobj fs =>
    match alookup fs k with
    | some x => .ok x
    | none => .error ("KeyError: " ++ k)
  | _ => .error "TypeError: not a dict"

/-- Python `a[i]` on a JSON array: raises when out of range or the
receiver is not an array. -/
def pyIndexNat (v : JVal) (i : Nat) : Except String JVal :=
  match v with
  | .jarr xs =>
    match xs.get? i with
    | some x => .ok x
    | none => .error "IndexError"
  | _ => .error "TypeError: not a list"

theorem dictKeys_map_update {α : Type} (m : List (String × α)) (k : String) (v : α) :
    dictKeys (m.map fun p => if p.1 = k then (k, v) else p) = dictKeys m := by
  induction m with
  | nil => rfl
  | cons p ps ih =>
    simp only [dictKeys, List.map_cons] at *
    by_cases h : p.1 = k
    · simp [h, ih]
    · simp [h, ih]

theorem mem_dictKeys_insert {α : Type} (a : String) (m : List (String × α))
    (k : String) (v : α) :
    a ∈ dictKeys (dictInsert m k v) ↔ a ∈ dictKeys m ∨ a = k := by
  unfold dictInsert
  by_cases h : k ∈ dictKeys m
  · simp only [h, if_pos, dictKeys_map_update]
    constructor
    · exact fun ha => Or.inl ha
    · rintro (ha | rfl)
      · exact ha
      · exact h
  · rw [if_neg h]
    simp only [dictKeys, List.map_append, List.map_cons, List.map_nil,
      List.mem_append, List.mem_singleton]

theorem dictGet_map_update {α : Type} (m : List (String × α)) (k : String) (v : α)
    (h : k ∈ dictKeys m) :
    alookup (m.map fun p => if p.1 = k then (k, v) else p) k = some v := by
  induction m with
  | nil => simp [dictKeys] at h
  | cons p ps ih =>
    by_cases hp : p.1 = k
    · simp [alookup, hp]
    · simp only [dictKeys, List.map_cons, List.mem_cons] at h
      rcases h with h | h
      · exact absurd h.symm hp
      · simp [alookup, hp, ih h]

theorem alookup_append {α : Type} (m₁ m₂ : List (String × α)) (k : String) :
    alookup (m₁ ++ m₂) k =
      match alookup m₁ k with
      | some v => some v
      | none => alookup m₂ k := by
  induction m₁ with
  | nil => rfl
  | cons p ps ih =>
    by_cases hp : p.1 = k
    · simp [alookup, hp]
    · simp [alookup, hp, ih]

theorem alookup_eq_none_of_not_mem {α : Type} (m : List (String × α)) (k : String)
    (h : k ∉ dictKeys m) : alookup m k = none := by
  induction m with
  | nil => rfl
  | cons p ps ih =>
    simp only [dictKeys, List.map_cons, List.mem_cons] at h
    push_neg at h
    have hp : p.1 ≠ k := fun hpk => h.1 hpk.symm
    simp [alookup, hp, ih h.2]

theorem dictGet_insert_self {α : Type} (m : List (String × α)) (k : String) (v : α) :
    alookup (dictInsert m k v) k = some v := by
  unfold dictInsert
  by_cases h : k ∈ dictKeys m
  · simp only [h, if_pos]
    exact dictGet_map_update m k v h
  · simp only [h, if_neg, not_false_iff]
    rw [alookup_append, alookup_eq_none_of_not_mem m k h]
    simp [alookup]

theorem alookup_map_update_ne {α : Type} (m : List (String × α)) (k a : String)
    (v : α) (h : a ≠ k) :
    alookup (m.map fun p => if p.1 = k then (k, v) else p) a = alookup m a := by
  induction m with
  | nil => rfl
  | cons p ps ih =>
    by_cases hp : p.1 = k
    · have hka : ¬ (k = a) := fun hh => h hh.symm
      have hpa : ¬ (p.1 = a) := by rw [hp]; exact hka
      simp [alookup, hp, hka, hpa, ih]
    · by_cases hpa : p.1 = a
      · have hak : ¬ (a = k) := h
        simp [alookup, hp, hpa, hak]
      · simp [alookup, hp, hpa, ih]

theorem dictGet_insert_ne {α : Type} (m : List (String × α)) (k a : String) (v : α)
    (h : a ≠ k) : alookup (dictInsert m k v) a = alookup m a := by
  unfold dictInsert
  by_cases hk : k ∈ dictKeys m
  · rw [if_pos hk]
    exact alookup_map_update_ne m k a v h
  · rw [if_neg hk, alookup_append]
    cases hm : alookup m a with
    | some v' => rfl
    | none =>
      have hka : ¬ (k = a) := fun hh => h hh.symm
      simp [alookup, hka]

theorem length_dictInsert_of_not_mem {α : Type} (m : List (String × α))
    (k : String) (v : α) (h : k ∉ dictKeys m) :
    (dictInsert m k v).length = m.length + 1 := by
  unfold dictInsert
  rw [if_neg h]
  simp

theorem dictKeys_insert_of_not_mem {α : Type} (m : List (String × α))
    (k : String) (v : α) (h : k ∉ dictKeys m) :
    dictKeys (dictInsert m k v) = dictKeys m ++ [k] := by
  unfold dictInsert
  rw [if_neg h]
  simp [dictKeys]

namespace Run

/-- Capability of `translate_text` (src/run.py lines 127-139): one Gemini
call per (text, target language) pair.  The prompt is a fixed template
instantiated with the text and the target language (plus its display name,
a pure function of the language code), so the call is abstracted as a
function of `(text, target_lang)`; a raised exception is `.error` with the
exception's message. -/
def TranslateCap : Type := String → String → Except String String

/-- src/run.py `translate_single_lang` (lines 142-150): translate the
title, then the description, for one language; any exception makes the
whole language fail and is converted to the error-message component. -/
def translate_single_lang (tr : TranslateCap) (title description lang : String) :
    String × Option JVal × Option String :=
  match tr title lang with
  | .error e => (lang, none, some e)
  | .ok translated_title =>
    match tr description lang with
    | .error e => (lang, none, some e)
    | .ok translated_desc =>
      (lang, some (.jobj [("title", .jstr translated_title),
                          ("description", .jstr translated_desc)]), none)

/-- The translation calls `translate_single_lang` issues, in order, as
(text, target language) pairs: the title call always, the description
call only once the title call has succeeded (the exception aborts the
rest of the `try` block). -/
def translate_single_lang_calls (tr : TranslateCap) (title description lang : String) :
    List (String × String) :=
  match tr title lang with
  | .error _ => [(title, lang)]
  | .ok _ => [(title, lang), (description, lang)]

/-- The per-language result component of `translate_single_lang`. -/
def singleResult (tr : TranslateCap) (title description lang : String) : Option JVal :=
  (translate_single_lang tr title description lang).2.1

/-- The document part of the `as_completed` collection loop of
`translate_metadata` (src/run.py lines 181-191), folded over the
completion order: each successful language is assigned into the dict,
each failed one leaves it unchanged. -/
def docFold (tr : TranslateCap) (title description : String)
    (m : List (String × JVal)) (order : List String) : List (String × JVal) :=
  order.foldl (fun d l =>
    match singleResult tr title description l with
    | some result => dictInsert d l result
    | none => d) m

theorem docFold_cons (tr : TranslateCap) (title description : String)
    (m : List (String × JVal)) (a : String) (order : List String) :
    docFold tr title description m (a :: order) =
      docFold tr title description
        (match singleResult tr title description a with
         | some result => dictInsert m a result
         | none => m) order := rfl

/-- One completed future in the `as_completed` loop of `translate_metadata`
(src/run.py lines 181-191): a successful language is inserted into the
document, a failed one is appended to the failure list. -/
def transStep (tr : TranslateCap) (title description : String)
    (acc : List (String × JVal) × List String) (lang : String) :
    List (String × JVal) × List String :=
  match translate_single_lang tr title description lang with
  | (l, some result, _) => (dictInsert acc.1 l result, acc.2)
  | (l, none, _) => (acc.1, acc.2 ++ [l])

/-- The document seeded by `translate_metadata` before any translation
(src/run.py lines 157-169): a `default` entry carrying the source
title/description/language, plus the same title/description under the
source-language code itself. -/
def seedMetadata (title description source_lang : String) : List (String × JVal) :=
  dictInsert
    (dictInsert [] "default"
      (.jobj [("title", .jstr title), ("description", .jstr description),
              ("language", .jstr source_lang)]))
    source_lang
    (.jobj [("title", .jstr title), ("description", .jstr description)])

/-- src/run.py `translate_metadata` (lines 153-196): fan the per-language
translations out over a thread pool bounded by `max_workers` and collect
the results as they complete.  Concurrency is modelled by quantifying over
the completion order `order` (an arbitrary permutation of the target-language
list); `max_workers` only bounds the scheduling and cannot affect the
collected result, so the definition does not consume it.  The returned
pair is the metadata document together with the reported `failed` list. -/
def translate_metadata (tr : TranslateCap) (title description source_lang : String)
    (order : List String) (max_workers : Nat) :
    List (String × JVal) × List String :=
  let _ := max_workers
  order.foldl (transStep tr title description)
    (seedMetadata title description source_lang, [])

theorem transStep_fst (tr : TranslateCap) (title description : String)
    (acc : List (String × JVal) × List String) (lang : String) :
    (transStep tr title description acc lang).1 =
      match singleResult tr title description lang with
      | some result => dictInsert acc.1 lang result
      | none => acc.1 := by
  unfold transStep singleResult translate_single_lang
  cases tr title lang with
  | error e => rfl
  | ok t => cases tr description lang with
    | error e => rfl
    | ok d => rfl

theorem transStep_snd (tr : TranslateCap) (title description : String)
    (acc : List (String × JVal) × List String) (lang : String) :
    (transStep tr title description acc lang).2 =
      match singleResult tr title description lang with
      | some _ => acc.2
      | none => acc.2 ++ [lang] := by
  unfold transStep singleResult translate_single_lang
  cases tr title lang with
  | error e => rfl
  | ok t => cases tr description lang with
    | error e => rfl
    | ok d => rfl

/-- The failure list collects, in completion order, exactly the languages
whose pair of translation calls did not both succeed. -/
theorem foldl_transStep_snd (tr : TranslateCap) (title description : String)
    (order : List String) (m : List (String × JVal)) (f : List String) :
    (order.foldl (transStep tr title description) (m, f)).2 =
      f ++ order.filter (fun l => (singleResult tr title description l).isNone) := by
  induction order generalizing m f with
  | nil => simp
  | cons a rest ih =>
    rw [List.foldl_cons, List.filter_cons]
    have hstep := transStep_fst tr title description (m, f) a
    have hstep2 := transStep_snd tr title description (m, f) a
    cases hres : singleResult tr title description a with
    | some r =>
      rw [hres] at hstep hstep2
      have : transStep tr title description (m, f) a = (dictInsert m a r, f) := by
        exact Prod.ext hstep hstep2
      rw [this, ih]
      simp [hres]
    | none =>
      rw [hres] at hstep hstep2
      have : transStep tr title description (m, f) a = (m, f ++ [a]) := by
        exact Prod.ext hstep hstep2
      rw [this, ih]
      simp [hres]

/-- The document component of the fold ignores the failure component and
equals `docFold`. -/
theorem foldl_transStep_fst (tr : TranslateCap) (title description : String)
    (order : List String) (m : List (String × JVal)) (f : List String) :
    (order.foldl (transStep tr title description) (m, f)).1 =
      docFold tr title description m order := by
  induction order generalizing m f with
  | nil => rfl
  | cons a rest ih =>
    rw [List.foldl_cons, docFold_cons]
    have hstep := transStep_fst tr title description (m, f) a
    have hstep2 := transStep_snd tr title description (m, f) a
    cases hres : singleResult tr title description a with
    | some r =>
      rw [hres] at hstep hstep2
      have : transStep tr title description (m, f) a = (dictInsert m a r, f) := by
        exact Prod.ext hstep hstep2
      rw [this, ih]
    | none =>
      rw [hres] at hstep hstep2
      have : transStep tr title description (m, f) a = (m, f ++ [a]) := by
        exact Prod.ext hstep hstep2
      rw [this, ih]

/-- Membership in the keys of the collected document: a key is present
exactly when it was already seeded or is a successfully translated
language of the completion order. -/
theorem mem_dictKeys_docFold (tr : TranslateCap) (title description : String)
    (order : List String) (m : List (String × JVal)) (k : String) :
    k ∈ dictKeys (docFold tr title description m order) ↔
      k ∈ dictKeys m ∨
        (k ∈ order ∧ (singleResult tr title description k).isSome = true) := by
  induction order generalizing m with
  | nil => simp [docFold]
  | cons a rest ih =>
    rw [docFold_cons]
    cases hres : singleResult tr title description a with
    | some r =>
      have ha : (singleResult tr title description a).isSome = true := by
        rw [hres]; rfl
      rw [ih, mem_dictKeys_insert]
      simp only [List.mem_cons]
      constructor
      · rintro ((h | rfl) | ⟨hr, hs⟩)
        · exact Or.inl h
        · exact Or.inr ⟨Or.inl rfl, ha⟩
        · exact Or.inr ⟨Or.inr hr, hs⟩
      · rintro (h | ⟨(rfl | hr), hs⟩)
        · exact Or.inl (Or.inl h)
        · exact Or.inl (Or.inr rfl)
        · exact Or.inr ⟨hr, hs⟩
    | none =>
      have ha : ¬ ((singleResult tr title description a).isSome = true) := by
        rw [hres]; simp
      rw [ih]
      simp only [List.mem_cons]
      constructor
      · rintro (h | ⟨hr, hs⟩)
        · exact Or.inl h
        · exact Or.inr ⟨Or.inr hr, hs⟩
      · rintro (h | ⟨(rfl | hr), hs⟩)
        · exact Or.inl h
        · exact absurd hs ha
        · exact Or.inr ⟨hr, hs⟩

/-- A key outside the completion order keeps its seeded value. -/
theorem alookup_docFold_of_not_mem (tr : TranslateCap) (title description : String)
    (order : List String) (m : List (String × JVal)) (s : String)
    (hs : s ∉ order) :
    alookup (docFold tr title description m order) s = alookup m s := by
  induction order generalizing m with
  | nil => rfl
  | cons a rest ih =>
    rw [docFold_cons]
    simp only [List.mem_cons] at hs
    push_neg at hs
    cases hres : singleResult tr title description a with
    | some r =>
      rw [ih _ hs.2, dictGet_insert_ne m a s r hs.1]
    | none =>
      exact ih _ hs.2

/-- Size of the collected document: when every language of the (duplicate
free) completion order is fresh for the seed, each success contributes
exactly one new entry. -/
theorem length_docFold (tr : TranslateCap) (title description : String)
    (order : List String) (m : List (String × JVal))
    (hfresh : ∀ l ∈ order, l ∉ dictKeys m) (hnd : order.Nodup) :
    (docFold tr title description m order).length =
      m.length +
        (order.filter (fun l => (singleResult tr title description l).isSome)).length := by
  induction order generalizing m with
  | nil => simp [docFold]
  | cons a rest ih =>
    rw [docFold_cons, List.filter_cons]
    have ha : a ∉ dictKeys m := hfresh a (List.mem_cons_self a rest)
    have hnd' := List.nodup_cons.mp hnd
    cases hres : singleResult tr title description a with
    | some r =>
      have hfresh' : ∀ l ∈ rest, l ∉ dictKeys (dictInsert m a r) := by
        intro l hl
        rw [dictKeys_insert_of_not_mem m a r ha]
        simp only [List.mem_append, List.mem_singleton]
        rintro (h | rfl)
        · exact hfresh l (List.mem_cons_of_mem a hl) h
        · exact hnd'.1 hl
      rw [ih _ hfresh' hnd'.2, length_dictInsert_of_not_mem m a r ha]
      simp [hres]
      omega
    | none =>
      have hfresh' : ∀ l ∈ rest, l ∉ dictKeys m :=
        fun l hl => hfresh l (List.mem_cons_of_mem a hl)
      rw [ih _ hfresh' hnd'.2]
      simp [hres]

/-- Keys of the seed document. -/
theorem mem_dictKeys_seed (title description source_lang : String) (k : String) :
    k ∈ dictKeys (seedMetadata title description source_lang) ↔
      k = "default" ∨ k = source_lang := by
  unfold seedMetadata
  rw [mem_dictKeys_insert, mem_dictKeys_insert]
  simp [dictKeys]

/-- The seed stores the source title and description under the source
language code. -/
theorem alookup_seed_source (title description source_lang : String) :
    alookup (seedMetadata title description source_lang) source_lang =
      some (.jobj [("title", .jstr title), ("description", .jstr description)]) :=
  dictGet_insert_self _ _ _

/-- The seed keeps the `default` entry when the source language code is
not the literal string `default`. -/
theorem alookup_seed_default (title description source_lang : String)
    (h : source_lang ≠ "default") :
    alookup (seedMetadata title description source_lang) "default" =
      some (.jobj [("title", .jstr title), ("description", .jstr description),
                   ("language", .jstr source_lang)]) := by
  unfold seedMetadata
  rw [dictGet_insert_ne _ _ _ _ (fun hh => h hh.symm)]
  exact dictGet_insert_self _ _ _

/-- The seed has exactly two entries when the source language code is not
the literal string `default`. -/
theorem length_seed (title description source_lang : String)
    (h : source_lang ≠ "default") :
    (seedMetadata title description source_lang).length = 2 := by
  unfold seedMetadata
  have h0 : "default" ∉ dictKeys ([] : List (String × JVal)) := by simp [dictKeys]
  have h1 : source_lang ∉ dictKeys (dictInsert ([] : List (String × JVal)) "default"
      (.jobj [("title", .jstr title), ("description", .jstr description),
              ("language", .jstr source_lang)])) := by
    rw [dictKeys_insert_of_not_mem _ _ _ h0]
    simp [dictKeys, h]
  rw [length_dictInsert_of_not_mem _ _ _ h1, length_dictInsert_of_not_mem _ _ _ h0]
  rfl

end Run

namespace Run

/-- src/run.py `YOUTUBE_LANG_MAP` (lines 226-231): canonical language
codes whose YouTube-API (platform) code differs. -/
def YOUTUBE_LANG_MAP : List (String × String) :=
  [("iw", "he"), ("zh-CN", "zh-Hans"), ("zh-TW", "zh-Hant"), ("fil", "tl")]

/-- The lookup `YOUTUBE_LANG_MAP.get(lang, lang)` (src/run.py line 277): map a
canonical code to platform space, identity when absent from the table. -/
def mapLang (lang : String) : String :=
  (alookup YOUTUBE_LANG_MAP lang).getD lang

/-- The hard-coded fallback supported-language set of
`get_supported_languages` (src/run.py lines 242-250). -/
def FALLBACK_LANGS : List String :=
  ["af", "ar", "az", "be", "bg", "bn", "bs", "ca", "cs", "da", "de",
   "el", "en", "es", "et", "fa", "fi", "fr", "gu", "hi", "hr", "hu",
   "hy", "id", "is", "it", "ja", "ka", "kk", "km", "kn", "ko", "ky",
   "lo", "lt", "lv", "mk", "ml", "mn", "mr", "ms", "my", "ne", "nl",
   "no", "pa", "pl", "pt", "ro", "ru", "si", "sk", "sl", "sq", "sr",
   "sv", "sw", "ta", "te", "th", "tl", "tr", "uk", "ur", "uz", "vi",
   "zh-Hans", "zh-Hant", "zu"]

/-- src/run.py `get_supported_languages` (lines 234-250): the
`i18nLanguages().list` query is modelled as a capability that either
returns the list of language ids of the response's items or raises; a
raised exception is caught and replaced by the hard-coded fallback set,
so the function itself never raises. -/
def get_supported_languages (query : Except String (List String)) : List String :=
  match query with
  | .ok ids => ids
  | .error _ => FALLBACK_LANGS

/-- One iteration of the localization loop of src/run.py `upload_video`
(lines 267-285): skip the `default` key and falsy values silently, skip
entries without a truthy title and description with a
"(데이터없음)" (no data) reason, map the code to platform space, skip
codes outside the supported set with a "(미지원)" (unsupported) reason,
otherwise store the entry under its platform code. -/
def locStep (supported : List String)
    (acc : List (String × JVal) × List String) (p : String × JVal) :
    List (String × JVal) × List String :=
  if p.1 = "default" ∨ truthy p.2 = false then acc
  else
    let loc_title := pyGet p.2 "title"
    let loc_desc := pyGet p.2 "description"
    if truthy loc_title = false ∨ truthy loc_desc = false then
      (acc.1, acc.2 ++ [p.1 ++ "(데이터없음)"])
    else
      let yt_lang := mapLang p.1
      if yt_lang ∉ supported then
        (acc.1, acc.2 ++ [p.1 ++ "(미지원)"])
      else
        (dictInsert acc.1 yt_lang
          (.jobj [("title", loc_title), ("description", loc_desc)]), acc.2)

/-- The localization reconciliation of src/run.py `upload_video`
(lines 265-289): fold the loop over the metadata document, producing the
`localizations` map and the `skipped` reason list. -/
def build_localizations (metadata : List (String × JVal)) (supported : List String) :
    List (String × JVal) × List String :=
  metadata.foldl (locStep supported) ([], [])

/-- The reason `locStep` would append for one entry, if any: a
characterization device for the `skipped` component. -/
def skipReason (supported : List String) (p : String × JVal) : Option String :=
  if p.1 = "default" ∨ truthy p.2 = false then none
  else if truthy (pyGet p.2 "title") = false ∨ truthy (pyGet p.2 "description") = false then
    some (p.1 ++ "(데이터없음)")
  else if mapLang p.1 ∉ supported then some (p.1 ++ "(미지원)")
  else none

theorem locStep_fst (supported : List String)
    (acc : List (String × JVal) × List String) (p : String × JVal) :
    (locStep supported acc p).1 =
      if p.1 ≠ "default" ∧ truthy p.2 = true ∧
          truthy (pyGet p.2 "title") = true ∧ truthy (pyGet p.2 "description") = true ∧
          mapLang p.1 ∈ supported then
        dictInsert acc.1 (mapLang p.1)
          (.jobj [("title", pyGet p.2 "title"), ("description", pyGet p.2 "description")])
      else acc.1 := by
  unfold locStep
  by_cases h1 : p.1 = "default" ∨ truthy p.2 = false
  · rw [if_pos h1, if_neg]
    rintro ⟨hd, ht, -⟩
    rcases h1 with h1 | h1
    · exact hd h1
    · rw [ht] at h1; exact absurd h1 (by simp)
  · rw [if_neg h1]
    push_neg at h1
    have ht2 : truthy p.2 = true := by
      cases hh : truthy p.2
      · exact absurd hh h1.2
      · rfl
    by_cases h2 : truthy (pyGet p.2 "title") = false ∨ truthy (pyGet p.2 "description") = false
    · simp only [if_pos h2]
      rw [if_neg]
      rintro ⟨-, -, ha, hb, -⟩
      rcases h2 with h2 | h2
      · rw [ha] at h2; exact absurd h2 (by simp)
      · rw [hb] at h2; exact absurd h2 (by simp)
    · simp only [if_neg h2]
      push_neg at h2
      have ha : truthy (pyGet p.2 "title") = true := by
        cases hh : truthy (pyGet p.2 "title")
        · exact absurd hh h2.1
        · rfl
      have hb : truthy (pyGet p.2 "description") = true := by
        cases hh : truthy (pyGet p.2 "description")
        · exact absurd hh h2.2
        · rfl
      by_cases h3 : mapLang p.1 ∉ supported
      · rw [if_pos h3, if_neg]
        rintro ⟨-, -, -, -, hm⟩
        exact h3 hm
      · rw [if_neg h3, if_pos]
        push_neg at h3
        exact ⟨h1.1, ht2, ha, hb, h3⟩

theorem locStep_snd (supported : List String)
    (acc : List (String × JVal) × List String) (p : String × JVal) :
    (locStep supported acc p).2 =
      match skipReason supported p with
      | some reason => acc.2 ++ [reason]
      | none => acc.2 := by
  unfold locStep skipReason
  by_cases h1 : p.1 = "default" ∨ truthy p.2 = false
  · rw [if_pos h1, if_pos h1]
  · rw [if_neg h1, if_neg h1]
    by_cases h2 : truthy (pyGet p.2 "title") = false ∨ truthy (pyGet p.2 "description") = false
    · simp only [if_pos h2]
    · simp only [if_neg h2]
      by_cases h3 : mapLang p.1 ∉ supported
      · simp only [if_pos h3]
      · simp only [if_neg h3]

end Run

namespace Run

/-- The skip-reason list of the reconciliation is exactly the
per-entry reasons, in document order. -/
theorem foldl_locStep_snd (supported : List String)
    (metadata : List (String × JVal))
    (locs : List (String × JVal)) (sk : List String) :
    (metadata.foldl (locStep supported) (locs, sk)).2 =
      sk ++ metadata.filterMap (skipReason supported) := by
  induction metadata generalizing locs sk with
  | nil => simp
  | cons p rest ih =>
    rw [List.foldl_cons, List.filterMap_cons]
    have h2 := locStep_snd supported (locs, sk) p
    have h1 := locStep_fst supported (locs, sk) p
    cases hr : skipReason supported p with
    | some reason =>
      rw [hr] at h2
      have : locStep supported (locs, sk) p = ((locStep supported (locs, sk) p).1, sk ++ [reason]) := by
        exact Prod.ext rfl h2
      rw [this, ih]
      simp
    | none =>
      rw [hr] at h2
      have : locStep supported (locs, sk) p = ((locStep supported (locs, sk) p).1, sk) := by
        exact Prod.ext rfl h2
      rw [this, ih]

/-- Every key of the accumulated localizations map is an already-present
key or a member of the supported set. -/
theorem mem_dictKeys_foldl_locStep (supported : List String)
    (metadata : List (String × JVal))
    (locs : List (String × JVal)) (sk : List String) (k : String)
    (hk : k ∈ dictKeys (metadata.foldl (locStep supported) (locs, sk)).1) :
    k ∈ dictKeys locs ∨ k ∈ supported := by
  induction metadata generalizing locs sk with
  | nil => exact Or.inl hk
  | cons p rest ih =>
    rw [List.foldl_cons] at hk
    have h1 := locStep_fst supported (locs, sk) p
    by_cases hc : p.1 ≠ "default" ∧ truthy p.2 = true ∧
        truthy (pyGet p.2 "title") = true ∧ truthy (pyGet p.2 "description") = true ∧
        mapLang p.1 ∈ supported
    · rw [if_pos hc] at h1
      have hk' := hk
      rw [show locStep supported (locs, sk) p =
          ((locStep supported (locs, sk) p).1, (locStep supported (locs, sk) p).2) from rfl] at hk'
      rw [h1] at hk'
      rcases ih _ _ hk' with h | h
      · rw [mem_dictKeys_insert] at h
        rcases h with h | rfl
        · exact Or.inl h
        · exact Or.inr hc.2.2.2.2
      · exact Or.inr h
    · rw [if_neg hc] at h1
      have hk' := hk
      rw [show locStep supported (locs, sk) p =
          ((locStep supported (locs, sk) p).1, (locStep supported (locs, sk) p).2) from rfl] at hk'
      rw [h1] at hk'
      exact ih _ _ hk'

/-- The keys of the reconciled localizations map are members of the
supplied supported set. -/
theorem mem_dictKeys_build_localizations (supported : List String)
    (metadata : List (String × JVal)) (k : String)
    (hk : k ∈ dictKeys (build_localizations metadata supported).1) :
    k ∈ supported := by
  rcases mem_dictKeys_foldl_locStep supported metadata [] [] k hk with h | h
  · simp [dictKeys] at h
  · exact h

/-- A falsy entry (null or empty object value) contributes nothing at all
to the reconciliation: dropping it leaves the result unchanged. -/
theorem locStep_falsy (supported : List String)
    (acc : List (String × JVal) × List String) (p : String × JVal)
    (h : truthy p.2 = false) : locStep supported acc p = acc := by
  unfold locStep
  rw [if_pos (Or.inr h)]

/-- src/run.py `upload_video` chunk loop (lines 315-319; identically
src/upload.py lines 113-117): repeatedly call `next_chunk` until a
response arrives; each truthy status produces one printed progress
percentage.  The backend's chunk answers are modelled as the finite trace
of `(status, response)` pairs the loop consumes, a status being the
reported progress percentage; the result is the list of emitted progress
events together with the terminating response (none if the trace runs
out, i.e. the loop would still be waiting). -/
def upload_chunk_loop : List (Option Nat × Option JVal) → List Nat × Option JVal
  | [] => ([], none)
  | (status, response) :: rest =>
    let events : List Nat := match status with
      | some p => [p]
      | none => []
    match response with
    | some r => (events, some r)
    | none =>
      let out := upload_chunk_loop rest
      (events ++ out.1, out.2)

/-- The indexing `response["id"]` after the chunk loop (src/run.py line 321,
src/upload.py line 119): the video id extracted from the terminal
response, when the loop terminated. -/
def upload_video_id (chunks : List (Option Nat × Option JVal)) : Option JVal :=
  match (upload_chunk_loop chunks).2 with
  | some r => (pyIndex r "id").toOption
  | none => none

end Run

/-- Python `d.get(k, dflt)` where the receiver may not be a dict, in a
context whose surrounding `try` catches the raised `AttributeError`. -/
def pyGetDE (v : JVal) (k : String) (dflt : JVal) : Except String JVal :=
  match v with
  | .jobj fs => .ok ((alookup fs k).getD dflt)
  | _ => .error "AttributeError: not a dict"

namespace Upl

/-- src/upload.py `upload_video` localizations construction (lines 75-87):
every non-`default` entry of the metadata document is forwarded, with the
*default* title/description substituted for a missing field — there is no
"no data" / "unsupported" filtering and no dialect mapping in this older
entry point.  `title` and `description` are the already-computed default
snippet values (which may themselves be any JSON value). -/
def upload_localizations (metadata : Option (List (String × JVal)))
    (title description : JVal) : List (String × JVal) :=
  match metadata with
  | none => []
  | some md =>
    md.foldl (fun locs p =>
      if p.1 = "default" then locs
      else
        dictInsert locs p.1
          (.jobj [("title", jgetD p.2 "title" title),
                  ("description", jgetD p.2 "description" description)])) []

/-- src/upload.py `upload_video` request-body construction (lines 74-103):
default title falls back to the video filename stem, description to the
empty string; the `localizations` part is attached only when non-empty. -/
def upload_video_body (video_stem : String)
    (metadata : Option (List (String × JVal))) (privacy : String) : JVal :=
  let dflt : JVal := match metadata with
    | some md => (alookup md "default").getD (.jobj [])
    | none => .jobj []
  let title := jgetD dflt "title" (.jstr video_stem)
  let description := jgetD dflt "description" (.jstr "")
  let localizations := upload_localizations metadata title description
  let base : List (String × JVal) :=
    [("snippet", .jobj [("title", title), ("description", description),
                        ("categoryId", .jstr "22"),
                        ("defaultLanguage", jgetD dflt "language" (.jstr "en"))]),
     ("status", .jobj [("privacyStatus", .jstr privacy),
                       ("selfDeclaredMadeForKids", .jbool false)])]
  if localizations.isEmpty then .jobj base
  else .jobj (base ++ [("localizations", .jobj localizations)])

/-- src/upload.py `update_localizations` loop (lines 144-152): build the
localizations map from every non-`default` entry, falling back to the
fetched snippet's title (an indexing that raises when the snippet has no
title) and description; `data.get` raises when the entry's value is not
an object.  All raises are caught by the surrounding `try`. -/
def buildUpdateLocs (snippet : JVal) (metadata : List (String × JVal)) :
    Except String (List (String × JVal)) :=
  metadata.foldlM (fun locs p =>
    if p.1 = "default" then pure locs
    else do
      let st ← pyIndex snippet "title"
      let t ← pyGetDE p.2 "title" st
      let d ← pyGetDE p.2 "description" (jgetD snippet "description" (.jstr ""))
      pure (dictInsert locs p.1 (.jobj [("title", t), ("description", d)]))) []

/-- src/upload.py `update_localizations` fetch/extraction steps
(lines 132-152): take the first item of the fetched response, extract its
snippet and build the localizations map; any missing key raises into the
surrounding `try`. -/
def updFetchLocs (video_response : JVal) (metadata : List (String × JVal)) :
    Except String (JVal × List (String × JVal)) := do
  let video ← pyIndexNat (pyGet video_response "items") 0
  let snippet ← pyIndex video "snippet"
  let locs ← buildUpdateLocs snippet metadata
  pure (snippet, locs)

/-- src/upload.py `update_localizations` body construction
(lines 158-166). -/
def buildUpdateBody (video_id : String) (snippet : JVal)
    (metadata : List (String × JVal)) (locs : List (String × JVal)) :
    Except String JVal := do
  let dflt : JVal := (alookup metadata "default").getD (.jobj [])
  let st ← pyIndex snippet "title"
  let t ← pyGetDE dflt "title" st
  let d ← pyGetDE dflt "description" (jgetD snippet "description" (.jstr ""))
  let cat ← pyIndex snippet "categoryId"
  pure (.jobj [("id", .jstr video_id),
               ("snippet", .jobj [("title", t), ("description", d),
                                  ("categoryId", cat)]),
               ("localizations", .jobj locs)])

/-- How one run of src/upload.py `update_localizations` (lines 128-175)
ended.  `fetchError`, `buildError` and `updateError` are exceptions caught
by its `try`; `notFound` is the explicit zero-items early return;
`noLocalizations` is the early `True` return before any update call. -/
inductive UpdOutcome where
  | fetchError (e : String)
  | notFound
  | buildError (e : String)
  | noLocalizations
  | updateError (e : String)
  | updated

/-- src/upload.py `update_localizations` (lines 128-175), with the fetch
(`videos().list(...).execute()`, giving the response or raising) and the
update (`videos().update(...).execute()` on the built body) passed as
capabilities; the result records which control path the run took. -/
def update_localizations_outcome (fetch : Except String JVal)
    (upd : JVal → Except String Unit) (video_id : String)
    (metadata : List (String × JVal)) : UpdOutcome :=
  match fetch with
  | .error e => .fetchError e
  | .ok video_response =>
    if truthy (pyGet video_response "items") = false then .notFound
    else
      match updFetchLocs video_response metadata with
      | .error e => .buildError e
      | .ok (snippet, locs) =>
        if locs.isEmpty then .noLocalizations
        else
          match buildUpdateBody video_id snippet metadata locs with
          | .error e => .buildError e
          | .ok body =>
            match upd body with
            | .error e => .updateError e
            | .ok _ => .updated

/-- The boolean src/upload.py `update_localizations` returns: `True` on
the empty-localizations no-op and on a successful update, `False` on the
zero-items early return and on every caught exception. -/
def update_localizations (fetch : Except String JVal)
    (upd : JVal → Except String Unit) (video_id : String)
    (metadata : List (String × JVal)) : Bool :=
  match update_localizations_outcome fetch upd video_id metadata with
  | .noLocalizations => true
  | .updated => true
  | _ => false

/-- Whether the run executed the `videos().update` request. -/
def updateIssued : UpdOutcome → Bool
  | .updateError _ => true
  | .updated => true
  | _ => false

/-- Whether a directory entry is matched by the `Path.glob("*.srt")` of
src/upload.py `upload_captions` (line 203): pathlib globbing is plain
fnmatch, in which `*` matches any prefix — including a leading dot, so
hidden files such as `.hidden.srt`, and even `.srt` itself, are matched
(unlike the `glob` module).  The suffix test is written on the character
list so that it evaluates by kernel reduction. -/
def isSrt (name : String) : Bool :=
  List.isSuffixOf ".srt".toList name.toList

/-- The index of the last `.` in a character list, when there is one. -/
def lastDotPos : List Char → Option Nat
  | [] => none
  | c :: cs =>
    match lastDotPos cs with
    | some i => some (i + 1)
    | none => if c = '.' then some 0 else none

/-- Python `Path(name).stem` (src/upload.py line 215 derives the caption
language code this way): the name without its suffix, where the suffix
starts at the last dot provided that dot is neither the first nor the
last character of the name — so `en.srt` gives `en`, `.hidden.srt` gives
`.hidden`, and `.srt` gives `.srt` (a leading dot alone is not a
suffix). -/
def fileStem (name : String) : String :=
  let cs := name.toList
  match lastDotPos cs with
  | some i => if 0 < i ∧ i + 1 < cs.length then ⟨cs.take i⟩ else name
  | none => name

/-- Code-point lexicographic comparison of character lists: the order in
which Python compares strings. -/
def charListLe : List Char → List Char → Bool
  | [], _ => true
  | _ :: _, [] => false
  | a :: as, b :: bs =>
    if a < b then true
    else if b < a then false
    else charListLe as bs

/-- Python string comparison `a <= b` (code-point lexicographic). -/
def strLeb (a b : String) : Bool := charListLe a.toList b.toList

/-- Python `sorted(...)` over filenames within one directory: Python compares the
paths lexicographically, which for a shared directory prefix is the
code-point lexicographic order of the filenames. -/
def sortedStrings (l : List String) : List String :=
  l.insertionSort (fun a b => strLeb a b = true)

theorem charListLe_total : ∀ as bs, charListLe as bs = true ∨ charListLe bs as = true
  | [], _ => Or.inl rfl
  | _ :: _, [] => Or.inr rfl
  | a :: as, b :: bs => by
    rcases lt_trichotomy a b with hab | hab | hab
    · left
      simp [charListLe, hab]
    · subst hab
      have hirr : ¬ (a < a) := lt_irrefl a
      rcases charListLe_total as bs with h | h
      · left
        simp [charListLe, hirr, h]
      · right
        simp [charListLe, hirr, h]
    · right
      simp [charListLe, hab]

theorem charListLe_trans :
    ∀ as bs cs, charListLe as bs = true → charListLe bs cs = true →
      charListLe as cs = true
  | [], _, _ => fun _ _ => rfl
  | _ :: _, [], _ => fun h _ => by simp [charListLe] at h
  | _ :: _, _ :: _, [] => fun _ h => by simp [charListLe] at h
  | a :: as, b :: bs, c :: cs => fun h1 h2 => by
    rcases lt_trichotomy a b with hab | hab | hab
    · rcases lt_trichotomy b c with hbc | hbc | hbc
      · simp [charListLe, lt_trans hab hbc]
      · subst hbc
        simp [charListLe, hab]
      · rw [charListLe, if_neg (asymm hbc), if_pos hbc] at h2
        exact absurd h2 (by simp)
    · subst hab
      rcases lt_trichotomy a c with hac | hac | hac
      · simp [charListLe, hac]
      · subst hac
        have hirr : ¬ (a < a) := lt_irrefl a
        rw [charListLe, if_neg hirr, if_neg hirr] at h1 h2 ⊢
        exact charListLe_trans as bs cs h1 h2
      · have hirr : ¬ (a < a) := lt_irrefl a
        rw [charListLe, if_neg hirr, if_neg hirr] at h1
        rw [charListLe, if_neg (asymm hac), if_pos hac] at h2
        exact absurd h2 (by simp)
    · rw [charListLe, if_neg (asymm hab), if_pos hab] at h1
      exact absurd h1 (by simp)

theorem strLeb_total (a b : String) : strLeb a b = true ∨ strLeb b a = true :=
  charListLe_total a.toList b.toList

theorem strLeb_trans (a b c : String) (h1 : strLeb a b = true)
    (h2 : strLeb b c = true) : strLeb a c = true :=
  charListLe_trans a.toList b.toList c.toList h1 h2

/-- src/upload.py `upload_captions` (lines 200-224): glob the matching
subtitle files, sort them, and upload each one independently through the
`upload_caption` capability `cap` (which already catches per-file
exceptions and returns a success boolean), collecting successful and
failed language codes.  With no matching file it warns and returns two
empty lists. -/
def upload_captions (cap : String → String → String → Bool)
    (video_id : String) (files : List String) : List String × List String :=
  let srt_files := sortedStrings (files.filter isSrt)
  if srt_files.isEmpty then ([], [])
  else
    srt_files.foldl (fun acc f =>
      let language := fileStem f
      if cap video_id f language then (acc.1 ++ [language], acc.2)
      else (acc.1, acc.2 ++ [language])) ([], [])

/-- The condition under which src/upload.py `upload_captions` prints its
empty-directory warning (line 206) instead of uploading anything. -/
def upload_captions_warning (files : List String) : Bool :=
  (sortedStrings (files.filter isSrt)).isEmpty

theorem captions_foldl (cap : String → String → String → Bool) (video_id : String)
    (l : List String) (s f : List String) :
    l.foldl (fun acc fl =>
      let language := fileStem fl
      if cap video_id fl language then (acc.1 ++ [language], acc.2)
      else (acc.1, acc.2 ++ [language])) (s, f) =
      (s ++ (l.filter (fun x => cap video_id x (fileStem x))).map fileStem,
       f ++ (l.filter (fun x => !(cap video_id x (fileStem x)))).map fileStem) := by
  induction l generalizing s f with
  | nil => simp
  | cons a rest ih =>
    rw [List.foldl_cons, List.filter_cons, List.filter_cons]
    cases hc : cap video_id a (fileStem a) with
    | true =>
      simp only [hc, if_true, Bool.not_true, ih]
      simp
    | false =>
      simp only [hc, if_false, Bool.not_false, ih]
      simp

end Upl

/-- A concrete translation capability that always succeeds (for witnesses). -/
def trOk : Run.TranslateCap := fun text lang => .ok (text ++ "|" ++ lang)

/-- A concrete translation capability failing exactly for the target
language `en` (for witnesses and the size counterexample). -/
def trFailEn : Run.TranslateCap :=
  fun _ lang => if lang = "en" then .error "boom" else .ok "x"

/-- A concrete update capability that succeeds (for witnesses). -/
def updOk : JVal → Except String Unit := fun _ => .ok ()

/-- C1: for every source title and description, source-language code `s`
and list of distinct target-language codes `T` with `s ∉ T`, the metadata
document produced by the translation orchestrator `Run.translate_metadata`
(under any completion order and any concurrency limit) has exactly the key
set {"default"} ∪ {s} ∪ (the targets whose pair of translation calls both
succeeded), and `s` is itself a key mirroring the default entry's title
and description. -/
theorem translate_metadata_key_set (tr : Run.TranslateCap)
    (title description s : String) (T order : List String) (mw : Nat)
    (hT : T.Nodup) (hs : s ∉ T) (hperm : order.Perm T) :
    (∀ k, k ∈ dictKeys (Run.translate_metadata tr title description s order mw).1 ↔
        (k = "default" ∨ k = s ∨
          (k ∈ T ∧ (Run.singleResult tr title description k).isSome = true)))
    ∧ alookup (Run.translate_metadata tr title description s order mw).1 s =
        some (.jobj [("title", .jstr title), ("description", .jstr description)]) := by
  have hdoc : (Run.translate_metadata tr title description s order mw).1 =
      Run.docFold tr title description (Run.seedMetadata title description s) order := by
    show (order.foldl (Run.transStep tr title description)
        (Run.seedMetadata title description s, [])).1 = _
    exact Run.foldl_transStep_fst tr title description order _ _
  constructor
  · intro k
    rw [hdoc, Run.mem_dictKeys_docFold, Run.mem_dictKeys_seed, hperm.mem_iff]
    tauto
  · rw [hdoc, Run.alookup_docFold_of_not_mem tr title description order _ s
      (fun hmem => hs (hperm.subset hmem))]
    exact Run.alookup_seed_source title description s

/-- C1 witness at a concrete input. -/
theorem translate_metadata_key_set_witness :
    (["en", "ja"] : List String).Nodup
    ∧ ("ko" ∉ (["en", "ja"] : List String))
    ∧ (["ja", "en"] : List String).Perm ["en", "ja"]
    ∧ ((∀ k, k ∈ dictKeys (Run.translate_metadata trFailEn "t" "d" "ko" ["ja", "en"] 10).1 ↔
          (k = "default" ∨ k = "ko" ∨
            (k ∈ (["en", "ja"] : List String) ∧
              (Run.singleResult trFailEn "t" "d" k).isSome = true)))
        ∧ alookup (Run.translate_metadata trFailEn "t" "d" "ko" ["ja", "en"] 10).1 "ko" =
            some (.jobj [("title", .jstr "t"), ("description", .jstr "d")])) :=
  ⟨by decide, by decide, by decide,
    translate_metadata_key_set trFailEn "t" "d" "ko" ["en", "ja"] ["ja", "en"] 10
      (by decide) (by decide) (by decide)⟩

/-- C4: per target language the orchestrator issues a title call and then
a description call (the latter only after the former succeeded); the
language succeeds exactly when both calls succeed; a failing language ends
up in the failure list and gets no document entry; and the orchestrator
always returns a document (with its default entry) plus the failure list —
no individual translation exception escapes. -/
theorem translate_per_language_failure (tr : Run.TranslateCap)
    (title description s : String) (T order : List String) (mw : Nat)
    (hs : s ∉ T) (hd : "default" ∉ T) (hsd : s ≠ "default")
    (hperm : order.Perm T) :
    (∀ lang, Run.translate_single_lang_calls tr title description lang =
        (title, lang) :: (match tr title lang with
                          | .ok _ => [(description, lang)]
                          | .error _ => []))
    ∧ (∀ lang, (Run.singleResult tr title description lang).isSome = true ↔
        ((tr title lang).toOption.isSome = true ∧
          (tr description lang).toOption.isSome = true))
    ∧ (Run.translate_metadata tr title description s order mw).2 =
        order.filter (fun l => (Run.singleResult tr title description l).isNone)
    ∧ (∀ lang ∈ T, (Run.singleResult tr title description lang).isNone = true →
        alookup (Run.translate_metadata tr title description s order mw).1 lang = none)
    ∧ alookup (Run.translate_metadata tr title description s order mw).1 "default" =
        some (.jobj [("title", .jstr title), ("description", .jstr description),
                     ("language", .jstr s)]) := by
  have hdoc : (Run.translate_metadata tr title description s order mw).1 =
      Run.docFold tr title description (Run.seedMetadata title description s) order := by
    show (order.foldl (Run.transStep tr title description)
        (Run.seedMetadata title description s, [])).1 = _
    exact Run.foldl_transStep_fst tr title description order _ _
  refine ⟨?_, ?_, ?_, ?_, ?_⟩
  · intro lang
    unfold Run.translate_single_lang_calls
    cases tr title lang with
    | error e => rfl
    | ok t => rfl
  · intro lang
    unfold Run.singleResult Run.translate_single_lang
    cases tr title lang with
    | error e => simp [Except.toOption]
    | ok t =>
      cases tr description lang with
      | error e => simp [Except.toOption]
      | ok d => simp [Except.toOption]
  · show (order.foldl (Run.transStep tr title description)
        (Run.seedMetadata title description s, [])).2 = _
    rw [Run.foldl_transStep_snd]
    rfl
  · intro lang hlang hfail
    rw [hdoc]
    apply alookup_eq_none_of_not_mem
    rw [Run.mem_dictKeys_docFold, Run.mem_dictKeys_seed]
    rintro ((rfl | rfl) | ⟨-, hsome⟩)
    · exact hd hlang
    · exact hs hlang
    · rw [Option.isNone_iff_eq_none] at hfail
      rw [hfail] at hsome
      exact Bool.false_ne_true hsome
  · rw [hdoc, Run.alookup_docFold_of_not_mem tr title description order _ "default"
      (fun hmem => hd (hperm.subset hmem))]
    exact Run.alookup_seed_default title description s hsd

/-- C4 witness at a concrete input. -/
theorem translate_per_language_failure_witness :
    ("ko" ∉ (["en", "ja"] : List String))
    ∧ ("default" ∉ (["en", "ja"] : List String))
    ∧ ("ko" ≠ "default")
    ∧ (["en", "ja"] : List String).Perm ["en", "ja"]
    ∧ ((∀ lang, Run.translate_single_lang_calls trFailEn "t" "d" lang =
          ("t", lang) :: (match trFailEn "t" lang with
                          | .ok _ => [("d", lang)]
                          | .error _ => []))
      ∧ (∀ lang, (Run.singleResult trFailEn "t" "d" lang).isSome = true ↔
          ((trFailEn "t" lang).toOption.isSome = true ∧
            (trFailEn "d" lang).toOption.isSome = true))
      ∧ (Run.translate_metadata trFailEn "t" "d" "ko" ["en", "ja"] 10).2 =
          (["en", "ja"] : List String).filter
            (fun l => (Run.singleResult trFailEn "t" "d" l).isNone)
      ∧ (∀ lang ∈ (["en", "ja"] : List String),
            (Run.singleResult trFailEn "t" "d" lang).isNone = true →
            alookup (Run.translate_metadata trFailEn "t" "d" "ko" ["en", "ja"] 10).1 lang = none)
      ∧ alookup (Run.translate_metadata trFailEn "t" "d" "ko" ["en", "ja"] 10).1 "default" =
          some (.jobj [("title", .jstr "t"), ("description", .jstr "d"),
                       ("language", .jstr "ko")])) :=
  ⟨by decide, by decide, by decide, by decide,
    translate_per_language_failure trFailEn "t" "d" "ko" ["en", "ja"] ["en", "ja"] 10
      (by decide) (by decide) (by decide) (by decide)⟩

theorem length_filter_add_length_filter_not {α : Type} (p : α → Bool) (l : List α) :
    (l.filter p).length + (l.filter (fun a => !(p a))).length = l.length := by
  induction l with
  | nil => rfl
  | cons a rest ih =>
    rw [List.filter_cons, List.filter_cons]
    cases hp : p a
    · simp only [hp, Bool.not_false, if_true, if_false, cond_false, cond_true]
      simp [← ih]
      omega
    · simp only [hp, Bool.not_true]
      simp [← ih]
      omega

theorem filter_eq_single_of {α : Type} (l : List α) (p : α → Bool) (f : α)
    (hnd : l.Nodup) (hf : f ∈ l) (hpf : p f = true)
    (hothers : ∀ x ∈ l, x ≠ f → p x = false) :
    l.filter p = [f] := by
  induction l with
  | nil => simp at hf
  | cons a rest ih =>
    have hnd' := List.nodup_cons.mp hnd
    rw [List.filter_cons]
    rcases List.mem_cons.mp hf with rfl | hfr
    · rw [hpf]
      simp only [if_true]
      have : rest.filter p = [] := by
        rw [List.filter_eq_nil]
        intro x hx
        have hxf : x ≠ f := fun hh => hnd'.1 (hh ▸ hx)
        simp [hothers x (List.mem_cons_of_mem f hx) hxf]
      rw [this]
    · have haf : a ≠ f := fun hh => hnd'.1 (hh ▸ hfr)
      rw [hothers a (List.mem_cons_self a rest) haf]
      simp only [Bool.false_eq_true, if_false]
      exact ih hnd'.2 hfr (fun x hx hxf => hothers x (List.mem_cons_of_mem a hx) hxf)

/-- C5 counterexample: with N = 1 target language and the translation
failing for it, the orchestrator returns a document with 2 entries
(`default` plus the source language) and a one-element failure list — the
claimed document size N (here 1) is wrong. -/
theorem translate_metadata_size_counterexample :
    (Run.translate_metadata trFailEn "t" "d" "ko" ["en"] 10).1.length = 2
    ∧ (Run.translate_metadata trFailEn "t" "d" "ko" ["en"] 10).2 = ["en"]
    ∧ (Run.translate_metadata trFailEn "t" "d" "ko" ["en"] 10).1.length ≠ 1 :=
  ⟨by decide, by decide, by decide⟩

/-- C5 (amended): given N ≥ 1 distinct target languages (containing
neither the source code nor the literal key "default") and a translation
capability failing for exactly one of them, the orchestrator returns a
document of size N + 1 (default + source + the N − 1 successful targets)
plus a one-element failure list, for any completion order and any
concurrency limit. -/
theorem translate_metadata_size (tr : Run.TranslateCap)
    (title description s : String) (T order : List String) (mw : Nat) (f : String)
    (hT : T.Nodup) (hs : s ∉ T) (hd : "default" ∉ T) (hsd : s ≠ "default")
    (hperm : order.Perm T) (hf : f ∈ T)
    (hffail : (Run.singleResult tr title description f).isNone = true)
    (hok : ∀ l ∈ T, l ≠ f → (Run.singleResult tr title description l).isSome = true) :
    (Run.translate_metadata tr title description s order mw).1.length = T.length + 1
    ∧ (Run.translate_metadata tr title description s order mw).2 = [f] := by
  have hdoc : (Run.translate_metadata tr title description s order mw).1 =
      Run.docFold tr title description (Run.seedMetadata title description s) order := by
    show (order.foldl (Run.transStep tr title description)
        (Run.seedMetadata title description s, [])).1 = _
    exact Run.foldl_transStep_fst tr title description order _ _
  have hnd : order.Nodup := (List.Perm.nodup_iff hperm).mpr hT
  have hisS : ∀ (o : Option JVal), o.isSome = true → o.isNone = false := by
    intro o ho
    cases o with
    | none => exact absurd ho (by simp)
    | some v => rfl
  have hfailed : (Run.translate_metadata tr title description s order mw).2 =
      order.filter (fun l => (Run.singleResult tr title description l).isNone) := by
    show (order.foldl (Run.transStep tr title description)
        (Run.seedMetadata title description s, [])).2 = _
    rw [Run.foldl_transStep_snd]
    rfl
  have hone : order.filter (fun l => (Run.singleResult tr title description l).isNone) = [f] := by
    apply filter_eq_single_of order _ f hnd (hperm.mem_iff.mpr hf) hffail
    intro x hx hxf
    exact hisS _ (hok x (hperm.subset hx) hxf)
  refine ⟨?_, by rw [hfailed, hone]⟩
  have hfresh : ∀ l ∈ order, l ∉ dictKeys (Run.seedMetadata title description s) := by
    intro l hl hmem
    rw [Run.mem_dictKeys_seed] at hmem
    rcases hmem with rfl | rfl
    · exact hd (hperm.subset hl)
    · exact hs (hperm.subset hl)
  rw [hdoc, Run.length_docFold tr title description order _ hfresh hnd,
    Run.length_seed title description s hsd]
  have hpart := length_filter_add_length_filter_not
    (fun l => (Run.singleResult tr title description l).isNone) order
  have hfun : (fun l => !((Run.singleResult tr title description l).isNone)) =
      (fun l => (Run.singleResult tr title description l).isSome) :=
    funext (fun l => by cases Run.singleResult tr title description l <;> rfl)
  rw [hfun, hone] at hpart
  have hlen := hperm.length_eq
  simp only [List.length_cons, List.length_nil] at hpart
  omega

/-- C5 witness at a concrete input. -/
theorem translate_metadata_size_witness :
    (["en", "ja"] : List String).Nodup
    ∧ ("ko" ∉ (["en", "ja"] : List String))
    ∧ ("default" ∉ (["en", "ja"] : List String))
    ∧ ("ko" ≠ "default")
    ∧ (["ja", "en"] : List String).Perm ["en", "ja"]
    ∧ ("en" ∈ (["en", "ja"] : List String))
    ∧ (Run.singleResult trFailEn "t" "d" "en").isNone = true
    ∧ (∀ l ∈ (["en", "ja"] : List String), l ≠ "en" →
        (Run.singleResult trFailEn "t" "d" l).isSome = true)
    ∧ ((Run.translate_metadata trFailEn "t" "d" "ko" ["ja", "en"] 10).1.length =
        (["en", "ja"] : List String).length + 1
      ∧ (Run.translate_metadata trFailEn "t" "d" "ko" ["ja", "en"] 10).2 = ["en"]) :=
  ⟨by decide, by decide, by decide, by decide, by decide, by decide, by decide, by decide,
    translate_metadata_size trFailEn "t" "d" "ko" ["en", "ja"] ["ja", "en"] 10 "en"
      (by decide) (by decide) (by decide) (by decide) (by decide) (by decide) (by decide)
      (by decide)⟩

/-- C3: every key of the reconciled localizations map is a member of the
supplied supported set after canonical→platform dialect mapping; canonical
`zh-CN` maps to platform `zh-Hans` and a valid zh-CN entry is emitted under
`zh-Hans` exactly when `zh-Hans` is supported; codes absent from the
dialect table pass through unchanged. -/
theorem build_localizations_keys_supported :
    (∀ (metadata : List (String × JVal)) (supported : List String) (k : String),
        k ∈ dictKeys (Run.build_localizations metadata supported).1 → k ∈ supported)
    ∧ Run.mapLang "zh-CN" = "zh-Hans"
    ∧ (∀ l, l ∉ dictKeys Run.YOUTUBE_LANG_MAP → Run.mapLang l = l)
    ∧ Run.build_localizations
        [("zh-CN", .jobj [("title", .jstr "t"), ("description", .jstr "d")])]
        ["zh-Hans"] =
        ([("zh-Hans", .jobj [("title", .jstr "t"), ("description", .jstr "d")])], [])
    ∧ Run.build_localizations
        [("zh-CN", .jobj [("title", .jstr "t"), ("description", .jstr "d")])]
        ["en"] = ([], ["zh-CN(미지원)"]) := by
  refine ⟨?_, rfl, ?_, rfl, rfl⟩
  · intro metadata supported k hk
    exact Run.mem_dictKeys_build_localizations supported metadata k hk
  · intro l hl
    unfold Run.mapLang
    rw [alookup_eq_none_of_not_mem Run.YOUTUBE_LANG_MAP l hl]
    rfl

/-- C3 witness at a concrete input. -/
theorem build_localizations_keys_supported_witness :
    ("zh-Hans" ∈
      dictKeys (Run.build_localizations
        [("zh-CN", .jobj [("title", .jstr "t"), ("description", .jstr "d")])]
        ["zh-Hans"]).1)
    ∧ ("fr" ∉ dictKeys Run.YOUTUBE_LANG_MAP)
    ∧ ("zh-Hans" ∈ (["zh-Hans"] : List String))
    ∧ Run.mapLang "fr" = "fr" :=
  ⟨by decide, by decide,
    build_localizations_keys_supported.1
      [("zh-CN", .jobj [("title", .jstr "t"), ("description", .jstr "d")])]
      ["zh-Hans"] "zh-Hans" (by decide),
    build_localizations_keys_supported.2.2.1 "fr" (by decide)⟩

/-- C6: when the supported-language query raises, the hard-coded fallback
set becomes the supported set (the exception is swallowed, the function
returning normally); reconciliation against it keeps only keys inside the
fallback set, and a valid entry whose platform-space code is outside the
fallback set is skipped with the unsupported reason. -/
theorem supported_languages_fallback (e : String) (metadata : List (String × JVal)) :
    Run.get_supported_languages (.error e) = Run.FALLBACK_LANGS
    ∧ (∀ k, k ∈ dictKeys (Run.build_localizations metadata
          (Run.get_supported_languages (.error e))).1 → k ∈ Run.FALLBACK_LANGS)
    ∧ (∀ p ∈ metadata, p.1 ≠ "default" → truthy p.2 = true →
        truthy (pyGet p.2 "title") = true → truthy (pyGet p.2 "description") = true →
        Run.mapLang p.1 ∉ Run.FALLBACK_LANGS →
        (p.1 ++ "(미지원)") ∈ (Run.build_localizations metadata
          (Run.get_supported_languages (.error e))).2) := by
  refine ⟨rfl, ?_, ?_⟩
  · intro k hk
    exact Run.mem_dictKeys_build_localizations _ metadata k hk
  · intro p hp hdflt hmain htitle hdesc hunsup
    have hsk : (Run.build_localizations metadata
        (Run.get_supported_languages (.error e))).2 =
        metadata.filterMap (Run.skipReason Run.FALLBACK_LANGS) := by
      show (metadata.foldl (Run.locStep Run.FALLBACK_LANGS) ([], [])).2 = _
      rw [Run.foldl_locStep_snd]
      rfl
    rw [hsk, List.mem_filterMap]
    refine ⟨p, hp, ?_⟩
    unfold Run.skipReason
    rw [if_neg, if_neg, if_pos hunsup]
    · rintro (h | h)
      · rw [htitle] at h
        exact absurd h (by simp)
      · rw [hdesc] at h
        exact absurd h (by simp)
    · rintro (h | h)
      · exact hdflt h
      · rw [hmain] at h
        exact absurd h (by simp)

/-- C6 witness at a concrete input. -/
theorem supported_languages_fallback_witness :
    (("xx", JVal.jobj [("title", .jstr "t"), ("description", .jstr "d")]) ∈
        ([("xx", JVal.jobj [("title", .jstr "t"), ("description", .jstr "d")])] :
          List (String × JVal)))
    ∧ ("xx" ≠ "default")
    ∧ truthy (JVal.jobj [("title", .jstr "t"), ("description", .jstr "d")]) = true
    ∧ truthy (pyGet (JVal.jobj [("title", .jstr "t"), ("description", .jstr "d")]) "title") = true
    ∧ truthy (pyGet (JVal.jobj [("title", .jstr "t"), ("description", .jstr "d")]) "description") = true
    ∧ (Run.mapLang "xx" ∉ Run.FALLBACK_LANGS)
    ∧ ("xx" ++ "(미지원)") ∈ (Run.build_localizations
        [("xx", JVal.jobj [("title", .jstr "t"), ("description", .jstr "d")])]
        (Run.get_supported_languages (.error "boom"))).2 :=
  ⟨List.mem_singleton.mpr rfl, by decide, by decide, by decide, by decide, by decide,
    (supported_languages_fallback "boom"
        [("xx", JVal.jobj [("title", .jstr "t"), ("description", .jstr "d")])]).2.2
      ("xx", JVal.jobj [("title", .jstr "t"), ("description", .jstr "d")])
      (List.mem_singleton.mpr rfl) (by decide) (by decide) (by decide) (by decide) (by decide)⟩

/-- A concrete metadata document with one localization entry whose title
is the empty string (plus a well-formed default entry). -/
def mdEmptyTitle : List (String × JVal) :=
  [("default", .jobj [("title", .jstr "T"), ("description", .jstr "D"),
                      ("language", .jstr "en")]),
   ("xx", .jobj [("title", .jstr ""), ("description", .jstr "d")])]

/-- A concrete fetched video snippet (for the update path). -/
def snippetEx : JVal :=
  .jobj [("title", .jstr "S"), ("description", .jstr "SD"),
         ("categoryId", .jstr "22")]

/-- C2 (code-bug evidence): the standalone upload path src/upload.py
`upload_video` attaches a localization entry whose title is the empty
string to the upload request body, and its metadata-update path
`update_localizations` builds the same unfiltered entry — the "no data"
filtering the claim describes runs only in the integrated path
src/run.py `upload_video`, which skips that entry with the
"(데이터없음)" (no data) reason. -/
theorem upload_forwards_empty_title :
    pyGet (pyGet (Upl.upload_video_body "video" (some mdEmptyTitle) "private")
        "localizations") "xx"
      = .jobj [("title", .jstr ""), ("description", .jstr "d")]
    ∧ truthy (.jstr "") = false
    ∧ Upl.buildUpdateLocs snippetEx mdEmptyTitle =
        .ok [("xx", .jobj [("title", .jstr ""), ("description", .jstr "d")])]
    ∧ Run.build_localizations mdEmptyTitle ["en", "xx"] = ([], ["xx(데이터없음)"]) :=
  ⟨rfl, rfl, rfl, rfl⟩

/-- C10: a metadata entry whose value is JSON null or the empty object is
skipped entirely by the integrated-path reconciliation — removing it from
the document leaves both the localizations map and the skip-reason list
unchanged — whereas an entry merely missing its description is recorded
with the "(데이터없음)" (no data) reason. -/
theorem falsy_entry_skipped_entirely (pre post : List (String × JVal))
    (l : String) (v : JVal) (supported : List String)
    (hv : v = .jnull ∨ v = .jobj []) :
    Run.build_localizations (pre ++ (l, v) :: post) supported =
      Run.build_localizations (pre ++ post) supported
    ∧ Run.build_localizations [("ab", .jobj [("title", .jstr "t")])] ["ab"] =
        ([], ["ab(데이터없음)"]) := by
  constructor
  · unfold Run.build_localizations
    rw [List.foldl_append, List.foldl_append, List.foldl_cons]
    have hfalsy : truthy v = false := by
      rcases hv with rfl | rfl <;> rfl
    rw [Run.locStep_falsy supported _ (l, v) hfalsy]
  · rfl

/-- C10 witness at a concrete input. -/
theorem falsy_entry_skipped_entirely_witness :
    ((JVal.jnull = JVal.jnull ∨ JVal.jnull = JVal.jobj []))
    ∧ (Run.build_localizations
        ([("de", JVal.jobj [("title", .jstr "t"), ("description", .jstr "d")])] ++
          ("xx", JVal.jnull) :: []) ["de"] =
        Run.build_localizations
          ([("de", JVal.jobj [("title", .jstr "t"), ("description", .jstr "d")])] ++ []) ["de"]
      ∧ Run.build_localizations [("ab", .jobj [("title", .jstr "t")])] ["ab"] =
          ([], ["ab(데이터없음)"])) :=
  ⟨Or.inl rfl,
    falsy_entry_skipped_entirely
      [("de", JVal.jobj [("title", .jstr "t"), ("description", .jstr "d")])] []
      "xx" JVal.jnull ["de"] (Or.inl rfl)⟩

/-- C7: for a chunk trace of zero or more intermediate (progress, none)
tuples followed by one terminal (none, response) tuple, the upload loop
emits exactly one progress event per intermediate tuple and none for the
terminal one, terminates with that response, and the returned video id is
the terminal response's "id" field, produced exactly once as the loop's
single result. -/
theorem upload_chunk_loop_spec (ps : List Nat) (r : JVal) :
    Run.upload_chunk_loop
        (ps.map (fun p => ((some p : Option Nat), (none : Option JVal))) ++
          [((none : Option Nat), some r)])
      = (ps, some r)
    ∧ Run.upload_video_id
        (ps.map (fun p => ((some p : Option Nat), (none : Option JVal))) ++
          [((none : Option Nat), some r)])
      = (pyIndex r "id").toOption := by
  have h : ∀ qs : List Nat,
      Run.upload_chunk_loop
          (qs.map (fun p => ((some p : Option Nat), (none : Option JVal))) ++
            [((none : Option Nat), some r)])
        = (qs, some r) := by
    intro qs
    induction qs with
    | nil => rfl
    | cons a rest ih =>
      rw [List.map_cons, List.cons_append]
      simp only [Run.upload_chunk_loop]
      rw [ih]
      rfl
  refine ⟨h ps, ?_⟩
  unfold Run.upload_video_id
  rw [h ps]

/-- C8: the caption batch uploads exactly the glob-matched subtitle files
of the directory (pathlib globbing, which also matches dot-prefixed
names), processed in ascending filename order, each file's language code
being its filename stem, with non-matching files ignored (`en.srt` and
`ko.srt` are uploaded, `readme.txt` is not); a directory with no matching
file yields two empty result lists plus the warning, not an error. -/
theorem upload_captions_spec (cap : String → String → String → Bool)
    (video_id : String) (files : List String) :
    List.Sorted (fun a b => Upl.strLeb a b = true)
      (Upl.sortedStrings (files.filter Upl.isSrt))
    ∧ (Upl.sortedStrings (files.filter Upl.isSrt)).Perm (files.filter Upl.isSrt)
    ∧ Upl.upload_captions cap video_id files =
        (((Upl.sortedStrings (files.filter Upl.isSrt)).filter
            (fun x => cap video_id x (Upl.fileStem x))).map Upl.fileStem,
         ((Upl.sortedStrings (files.filter Upl.isSrt)).filter
            (fun x => !(cap video_id x (Upl.fileStem x)))).map Upl.fileStem)
    ∧ (files.filter Upl.isSrt = [] →
        Upl.upload_captions cap video_id files = ([], [])
        ∧ Upl.upload_captions_warning files = true)
    ∧ Upl.upload_captions (fun _ _ _ => true) "vid" ["readme.txt", "ko.srt", "en.srt"] =
        (["en", "ko"], [])
    ∧ Upl.isSrt "readme.txt" = false
    ∧ Upl.upload_captions (fun _ _ _ => true) "vid" [".hidden.srt", "b.srt"] =
        ([".hidden", "b"], [])
    ∧ Upl.isSrt ".srt" = true
    ∧ Upl.fileStem ".srt" = ".srt" := by
  haveI htot : IsTotal String (fun a b => Upl.strLeb a b = true) := ⟨Upl.strLeb_total⟩
  haveI htr : IsTrans String (fun a b => Upl.strLeb a b = true) := ⟨Upl.strLeb_trans⟩
  refine ⟨List.sorted_insertionSort _ _, List.perm_insertionSort _ _, ?_, ?_, ?_,
    by decide, by decide, by decide, by decide⟩
  · unfold Upl.upload_captions
    by_cases he : (Upl.sortedStrings (files.filter Upl.isSrt)).isEmpty = true
    · rw [if_pos he]
      rw [List.isEmpty_iff.mp he]
      rfl
    · rw [if_neg he, Upl.captions_foldl cap video_id _ [] []]
      simp
  · intro h
    constructor
    · unfold Upl.upload_captions
      rw [h]
      rfl
    · unfold Upl.upload_captions_warning
      rw [h]
      rfl
  · decide

/-- C8 witness at a concrete input (a directory with no matching file). -/
theorem upload_captions_spec_witness :
    ((["x.txt"] : List String).filter Upl.isSrt = [])
    ∧ (Upl.upload_captions (fun _ _ _ => true) "vid" ["x.txt"] = ([], [])
        ∧ Upl.upload_captions_warning ["x.txt"] = true) :=
  ⟨by decide,
    (upload_captions_spec (fun _ _ _ => true) "vid" ["x.txt"]).2.2.2.1 (by decide)⟩

/-- C9: the localization update path for an existing video returns False
without issuing any update call and without raising when the fetch raises
or when the video lookup yields zero items; every caught exception in the
fetch/build phase yields False with no update issued, and an exception
raised by the update call itself also yields False. -/
theorem update_localizations_guards (fetch : Except String JVal)
    (upd : JVal → Except String Unit) (video_id : String)
    (metadata : List (String × JVal)) :
    (∀ e, fetch = .error e →
        Upl.update_localizations fetch upd video_id metadata = false
        ∧ Upl.updateIssued
            (Upl.update_localizations_outcome fetch upd video_id metadata) = false)
    ∧ (∀ resp, fetch = .ok resp → truthy (pyGet resp "items") = false →
        Upl.update_localizations_outcome fetch upd video_id metadata = .notFound
        ∧ Upl.update_localizations fetch upd video_id metadata = false
        ∧ Upl.updateIssued
            (Upl.update_localizations_outcome fetch upd video_id metadata) = false)
    ∧ (∀ e, Upl.update_localizations_outcome fetch upd video_id metadata = .buildError e →
        Upl.update_localizations fetch upd video_id metadata = false
        ∧ Upl.updateIssued
            (Upl.update_localizations_outcome fetch upd video_id metadata) = false)
    ∧ (∀ e, Upl.update_localizations_outcome fetch upd video_id metadata = .updateError e →
        Upl.update_localizations fetch upd video_id metadata = false) := by
  refine ⟨?_, ?_, ?_, ?_⟩
  · intro e he
    subst he
    exact ⟨rfl, rfl⟩
  · intro resp hfe hitems
    subst hfe
    have ho : Upl.update_localizations_outcome (.ok resp) upd video_id metadata =
        .notFound := by
      simp only [Upl.update_localizations_outcome]
      rw [if_pos hitems]
    refine ⟨ho, ?_, ?_⟩
    · unfold Upl.update_localizations
      rw [ho]
    · rw [ho]
      rfl
  · intro e hout
    constructor
    · unfold Upl.update_localizations
      rw [hout]
    · rw [hout]
      rfl
  · intro e hout
    unfold Upl.update_localizations
    rw [hout]

/-- C9 witness at a concrete input (the fetch raises). -/
theorem update_localizations_guards_witness :
    ((Except.error "e0" : Except String JVal) = .error "e0")
    ∧ (Upl.update_localizations (.error "e0") updOk "vid" [] = false
        ∧ Upl.updateIssued
            (Upl.update_localizations_outcome (.error "e0") updOk "vid" []) = false) :=
  ⟨rfl, (update_localizations_guards (.error "e0") updOk "vid" []).1 "e0" rfl⟩
